import Mathlib

/-!
Verification development for the RentFaster scraping pipeline
(scrape_details_parallel.py, scrape_offline_parallel.py,
deduplicate_database.py).

The Python records are dynamic dicts whose values are strings, ints,
floats, booleans, None, or lists of strings; we embed them as
association lists over an explicit value type.  Every list-valued field
in the program only ever holds strings (utilities_included, amenities,
appliances), so list values are represented as lists of strings.
Python floats only appear as the captured numeral of a regex group
(baths), so they are represented by that numeral string.
-/

set_option maxRecDepth 8000

namespace RentFasterSpec

/-- A Python value as used by the scraper records. -/
inductive Val where
  | vs : String → Val
  | vn : Nat → Val
  | vfloat : String → Val
  | vb : Bool → Val
  | vnull : Val
  | vlistS : List String → Val
deriving DecidableEq, Repr

/-- A Python dict with string keys, in insertion order. -/
abbrev Dict := List (String × Val)

/-- Python d.get(k): value of the first binding of k (keys are unique in
real dicts, and first-binding lookup is the semantics our merge keeps). -/
def dget (d : Dict) (k : String) : Option Val :=
  (d.find? (fun p => p.1 == k)).map (fun p => p.2)

/-- Whether a dict has the key. -/
def hasKey (d : Dict) (k : String) : Bool :=
  (dget d k).isSome

/-- Python dict merge: in a parenthesized double-star merge of a and b,
keys of b win; keys only in a keep the value of a.  Represented as the
a-bindings whose keys b lacks, followed by b. -/
def dmerge (a b : Dict) : Dict :=
  a.filter (fun p => !(hasKey b p.1)) ++ b

/-- The ref_id field, when it is present and holds a string (it always
does in this program). -/
def refIdOf (d : Dict) : Option String :=
  match dget d "ref_id" with
  | some (Val.vs s) => some s
  | _ => none

theorem dget_append (a b : Dict) (k : String) :
    dget (a ++ b) k = ((dget a k).orElse (fun _ => dget b k)) := by
  unfold dget
  rw [List.find?_append]
  cases h : a.find? (fun p => p.1 == k) <;> simp [Option.orElse]

theorem dget_dmerge (a b : Dict) (k : String) :
    dget (dmerge a b) k =
      match dget b k with
      | some v => some v
      | none => dget a k := by
  unfold dmerge
  rw [dget_append]
  cases hb : dget b k with
  | some v =>
    have hfind :
        (a.filter (fun p => !(hasKey b p.1))).find? (fun p => p.1 == k) = none := by
      rw [List.find?_eq_none]
      intro p hp
      have hmem := List.of_mem_filter hp
      simp only [Bool.not_eq_true'] at hmem
      intro hk
      have : hasKey b p.1 = true := by
        unfold hasKey
        have : p.1 = k := by simpa using hk
        rw [this, hb]
        rfl
      rw [this] at hmem
      exact absurd hmem (by simp)
    have hfilter : dget (a.filter (fun p => !(hasKey b p.1))) k = none := by
      unfold dget
      rw [hfind]
      rfl
    rw [hfilter]
    simp [Option.orElse]
  | none =>
    have hfilter :
        dget (a.filter (fun p => !(hasKey b p.1))) k = dget a k := by
      unfold dget
      congr 1
      induction a with
      | nil => rfl
      | cons p ps ih =>
        by_cases hk : (p.1 == k) = true
        · have hb' : hasKey b p.1 = false := by
            unfold hasKey
            have : p.1 = k := by simpa using hk
            rw [this, hb]
            rfl
          simp [List.filter, List.find?, hb', hk]
        · by_cases hkey : hasKey b p.1 = true
          · simp [List.filter, List.find?, hkey, hk, ih]
          · simp only [Bool.not_eq_true] at hkey
            simp [List.filter, List.find?, hkey, hk, ih]
    rw [hfilter]
    cases dget a k <;> simp [Option.orElse]

/-! ## Backlog partitioning

scrape_parallel (both variants) splits the backlog with
  batch_size = max(1, len(listings) // num_workers)
  for i in range(0, len(listings), batch_size): listings[i:i+batch_size]
We embed the slicing loop as the usual chunking recursion: each step
takes the next batch_size-long slice and continues after it. -/

def batchSizeOf (n num_workers : Nat) : Nat :=
  max 1 (n / num_workers)

/-- The slicing loop, with the number of remaining items as a
structural bound on the number of iterations (each iteration consumes
at least one item, so the bound is never reached). -/
def chunksOfFuel (bs : Nat) : Nat → List α → List (List α)
  | _, [] => []
  | 0, _ :: _ => []
  | fuel + 1, x :: xs => (x :: xs).take bs :: chunksOfFuel bs fuel (xs.drop (bs - 1))

def chunksOf (bs : Nat) (l : List α) : List (List α) :=
  chunksOfFuel bs l.length l

/-- The batch split performed by scrape_parallel (the worker id and
headless flag that the source tuples alongside each batch carry no
information about the items and are omitted). -/
def partitionBacklog (listings : List α) (num_workers : Nat) : List (List α) :=
  chunksOf (batchSizeOf listings.length num_workers) listings

theorem chunksOfFuel_flatten (bs : Nat) (hbs : 1 ≤ bs) :
    ∀ fuel (l : List α), l.length ≤ fuel → (chunksOfFuel bs fuel l).flatten = l := by
  intro fuel
  induction fuel with
  | zero =>
    intro l hl
    cases l with
    | nil => rfl
    | cons x xs => simp at hl
  | succ n ih =>
    intro l hl
    cases l with
    | nil => rfl
    | cons x xs =>
      simp only [chunksOfFuel, List.flatten_cons]
      rw [ih (xs.drop (bs - 1)) (by
        simp only [List.length_drop]
        simp only [List.length_cons] at hl
        omega)]
      obtain ⟨k, rfl⟩ : ∃ k, bs = k + 1 := ⟨bs - 1, by omega⟩
      simp [List.take_succ_cons]

theorem chunksOf_flatten (bs : Nat) (hbs : 1 ≤ bs) (l : List α) :
    (chunksOf bs l).flatten = l :=
  chunksOfFuel_flatten bs hbs l.length l (le_refl _)

theorem chunksOfFuel_length (bs : Nat) (hbs : 1 ≤ bs) :
    ∀ fuel (l : List α), l.length ≤ fuel →
      (chunksOfFuel bs fuel l).length = (l.length + bs - 1) / bs := by
  intro fuel
  induction fuel with
  | zero =>
    intro l hl
    cases l with
    | nil =>
      simp only [chunksOfFuel, List.length_nil]
      rw [Nat.div_eq_of_lt (by omega)]
    | cons x xs => simp at hl
  | succ n ih =>
    intro l hl
    cases l with
    | nil =>
      simp only [chunksOfFuel, List.length_nil]
      rw [Nat.div_eq_of_lt (by omega)]
    | cons x xs =>
      simp only [List.length_cons] at hl
      simp only [chunksOfFuel, List.length_cons]
      rw [ih (xs.drop (bs - 1)) (by simp only [List.length_drop]; omega)]
      simp only [List.length_drop]
      rcases le_or_lt bs xs.length with hle | hlt
      · have harg : xs.length + 1 + bs - 1 = (xs.length - (bs - 1) + bs - 1) + bs := by
          omega
        rw [harg, Nat.add_div_right _ (by omega)]
      · have h0 : xs.length - (bs - 1) = 0 := by omega
        rw [h0]
        have harg : xs.length + 1 + bs - 1 = xs.length + bs := by omega
        rw [harg, Nat.add_div_right _ (by omega), Nat.div_eq_of_lt (by omega),
          Nat.div_eq_of_lt (by omega)]

theorem chunksOf_length (bs : Nat) (hbs : 1 ≤ bs) (l : List α) :
    (chunksOf bs l).length = (l.length + bs - 1) / bs :=
  chunksOfFuel_length bs hbs l.length l (le_refl _)

theorem chunksOfFuel_mem_length (bs : Nat) (hbs : 1 ≤ bs) :
    ∀ fuel (l : List α), ∀ b ∈ chunksOfFuel bs fuel l, 1 ≤ b.length ∧ b.length ≤ bs := by
  intro fuel
  induction fuel with
  | zero =>
    intro l b hb
    cases l <;> simp [chunksOfFuel] at hb
  | succ n ih =>
    intro l b hb
    cases l with
    | nil => simp [chunksOfFuel] at hb
    | cons x xs =>
      simp only [chunksOfFuel] at hb
      rcases List.mem_cons.mp hb with rfl | hb'
      · constructor
        · obtain ⟨k, rfl⟩ : ∃ k, bs = k + 1 := ⟨bs - 1, by omega⟩
          simp [List.take_succ_cons]
        · simp only [List.length_take]
          exact Nat.min_le_left bs (x :: xs).length
      · exact ih (xs.drop (bs - 1)) b hb'

theorem chunksOf_mem_length (bs : Nat) (hbs : 1 ≤ bs) (l : List α) :
    ∀ b ∈ chunksOf bs l, 1 ≤ b.length ∧ b.length ≤ bs :=
  chunksOfFuel_mem_length bs hbs l.length l

theorem chunksOfFuel_dropLast_length (bs : Nat) (hbs : 1 ≤ bs) :
    ∀ fuel (l : List α), ∀ b ∈ (chunksOfFuel bs fuel l).dropLast, b.length = bs := by
  intro fuel
  induction fuel with
  | zero =>
    intro l b hb
    cases l <;> simp [chunksOfFuel] at hb
  | succ n ih =>
    intro l b hb
    cases l with
    | nil => simp [chunksOfFuel] at hb
    | cons x xs =>
      simp only [chunksOfFuel] at hb
      cases hrest : chunksOfFuel bs n (xs.drop (bs - 1)) with
      | nil => rw [hrest] at hb; simp at hb
      | cons c cs =>
        rw [hrest] at hb
        rw [List.dropLast_cons_of_ne_nil (by simp)] at hb
        rcases List.mem_cons.mp hb with rfl | hb'
        · have hne : xs.drop (bs - 1) ≠ [] := by
            intro hnil
            rw [hnil] at hrest
            simp [chunksOfFuel] at hrest
          have hlen : bs - 1 < xs.length := by
            by_contra hge
            exact hne (List.drop_eq_nil_of_le (by omega))
          simp only [List.length_take, List.length_cons]
          omega
        · exact ih (xs.drop (bs - 1)) b (by rw [hrest]; exact hb')

theorem chunksOf_dropLast_length (bs : Nat) (hbs : 1 ≤ bs) (l : List α) :
    ∀ b ∈ (chunksOf bs l).dropLast, b.length = bs :=
  chunksOfFuel_dropLast_length bs hbs l.length l

/-! ## Deduplicator (deduplicate_database.py)

The script groups entries by entry.get('ref_id') into a dict that
preserves the insertion order of first occurrences, keeps the single
entry of a singleton group, and otherwise keeps
sorted(entries, key=lambda x: x.get('scraped_at', ''), reverse=True)[0],
i.e. the first entry attaining the lexicographically greatest
scraped_at string (Python sort is stable).  We embed the key list, the
groups (filter keeps the append order of the source loop) and the
selection of the first maximum. -/

/-- x.get('scraped_at', '') as the string sort key (every scraped_at the
program writes is an isoformat string). -/
def scrapedAtKey (d : Dict) : String :=
  match dget d "scraped_at" with
  | some (Val.vs s) => s
  | _ => ""

/-- entry.get('ref_id'), the grouping key (None when absent). -/
def dedupKey (d : Dict) : Option Val :=
  dget d "ref_id"

def keysStep (ks : List (Option Val)) (e : Dict) : List (Option Val) :=
  if dedupKey e ∈ ks then ks else ks ++ [dedupKey e]

/-- The grouping dict's keys, in insertion order of first occurrence. -/
def keysInOrder (es : List Dict) : List (Option Val) :=
  es.foldl keysStep []

/-- grouped[k]: the entries with key k, in input order. -/
def groupOf (es : List Dict) (k : Option Val) : List Dict :=
  es.filter (fun e => dedupKey e == k)

/-- Python string comparison: lexicographic on code points. -/
def strLtL : List Char → List Char → Bool
  | [], [] => false
  | [], _ :: _ => true
  | _ :: _, [] => false
  | a :: as, b :: bs =>
    if a.toNat < b.toNat then true
    else if b.toNat < a.toNat then false
    else strLtL as bs

def pyStrLt (a b : String) : Bool :=
  strLtL a.data b.data

/-- First entry attaining the maximal scraped_at key among acc and the
remaining entries: equals sorted(entries, key, reverse=True)[0]. -/
def mostRecentFirst (e : Dict) : List Dict → Dict
  | [] => e
  | x :: xs =>
    mostRecentFirst (if pyStrLt (scrapedAtKey e) (scrapedAtKey x) then x else e) xs

/-- Per-group selection: a singleton group keeps its entry as is, a
larger group keeps the most recent entry. -/
def pickGroup : List Dict → Dict
  | [] => []
  | [e] => e
  | e :: x :: xs => mostRecentFirst e (x :: xs)

/-- The deduplication pass of deduplicate_database.py: one kept record
per grouping key, in first-occurrence order. -/
def deduplicate_database (es : List Dict) : List Dict :=
  (keysInOrder es).map (fun k => pickGroup (groupOf es k))

theorem foldl_keysStep_nodup (es : List Dict) :
    ∀ ks : List (Option Val), ks.Nodup → (es.foldl keysStep ks).Nodup := by
  induction es with
  | nil => intro ks h; simpa using h
  | cons e es ih =>
    intro ks h
    simp only [List.foldl_cons]
    apply ih
    unfold keysStep
    by_cases hmem : dedupKey e ∈ ks
    · simpa [hmem] using h
    · simp only [hmem, if_false]
      simpa [List.nodup_append] using ⟨h, hmem⟩

theorem mem_foldl_keysStep (es : List Dict) :
    ∀ ks k, k ∈ es.foldl keysStep ks → k ∈ ks ∨ ∃ e ∈ es, dedupKey e = k := by
  induction es with
  | nil => intro ks k h; exact Or.inl (by simpa using h)
  | cons e es ih =>
    intro ks k h
    simp only [List.foldl_cons] at h
    rcases ih _ k h with hks | ⟨e', he', rfl⟩
    · unfold keysStep at hks
      by_cases hmem : dedupKey e ∈ ks
      · exact Or.inl (by simpa [hmem] using hks)
      · simp only [hmem, if_false, List.mem_append, List.mem_singleton] at hks
        rcases hks with hks | rfl
        · exact Or.inl hks
        · exact Or.inr ⟨e, List.mem_cons_self e es, rfl⟩
    · exact Or.inr ⟨e', List.mem_cons_of_mem e he', rfl⟩

theorem foldl_keysStep_mono (es : List Dict) :
    ∀ ks k, k ∈ ks → k ∈ es.foldl keysStep ks := by
  induction es with
  | nil => intro ks k h; simpa using h
  | cons e es ih =>
    intro ks k h
    simp only [List.foldl_cons]
    apply ih
    unfold keysStep
    by_cases hmem : dedupKey e ∈ ks
    · simpa [hmem] using h
    · simp [hmem, h]

theorem mem_foldl_keysStep_of_mem (es : List Dict) :
    ∀ ks e, e ∈ es → dedupKey e ∈ es.foldl keysStep ks := by
  induction es with
  | nil => intro ks e h; simp at h
  | cons e0 es ih =>
    intro ks e h
    rcases List.mem_cons.mp h with rfl | h'
    · simp only [List.foldl_cons]
      apply foldl_keysStep_mono
      unfold keysStep
      by_cases hmem : dedupKey e ∈ ks
      · rw [if_pos hmem]
        exact hmem
      · simp [hmem]
    · simp only [List.foldl_cons]
      exact ih _ e h'

theorem strLtL_nil_right (a : List Char) : strLtL a [] = false := by
  cases a <;> rfl

theorem strLtL_irrefl : ∀ a : List Char, strLtL a a = false := by
  intro a
  induction a with
  | nil => rfl
  | cons a0 as ih =>
    simp only [strLtL, ih]
    have h : ¬ a0.toNat < a0.toNat := by omega
    simp [h]

theorem strLtL_asymm : ∀ a b : List Char, strLtL a b = true → strLtL b a = false := by
  intro a
  induction a with
  | nil =>
    intro b h
    exact strLtL_nil_right b
  | cons a0 as ih =>
    intro b h
    cases b with
    | nil => simp [strLtL] at h
    | cons b0 bs =>
      simp only [strLtL] at h ⊢
      by_cases hab : a0.toNat < b0.toNat
      · have h1 : ¬ b0.toNat < a0.toNat := by omega
        simp [hab, h1]
      · by_cases hba : b0.toNat < a0.toNat
        · simp [hab, hba] at h
        · simp only [hab, hba, if_false] at h
          simp only [hab, hba, if_false]
          exact ih bs h

theorem strLtL_false_trans :
    ∀ a b c : List Char, strLtL a b = false → strLtL b c = false → strLtL a c = false := by
  intro a
  induction a with
  | nil =>
    intro b c h1 h2
    cases b with
    | nil =>
      cases c with
      | nil => rfl
      | cons c0 cs => simp [strLtL] at h2
    | cons b0 bs => simp [strLtL] at h1
  | cons a0 as ih =>
    intro b c h1 h2
    cases c with
    | nil => exact strLtL_nil_right _
    | cons c0 cs =>
      cases b with
      | nil => simp [strLtL] at h2
      | cons b0 bs =>
        simp only [strLtL] at h1 h2 ⊢
        by_cases hab : a0.toNat < b0.toNat
        · simp [hab] at h1
        · by_cases hba : b0.toNat < a0.toNat
          · by_cases hbc : b0.toNat < c0.toNat
            · simp [hbc] at h2
            · have h3 : ¬ a0.toNat < c0.toNat := by omega
              have h4 : c0.toNat < a0.toNat := by omega
              simp [h3, h4]
          · simp only [hab, hba, if_false] at h1
            by_cases hbc : b0.toNat < c0.toNat
            · simp [hbc] at h2
            · by_cases hcb : c0.toNat < b0.toNat
              · have h3 : ¬ a0.toNat < c0.toNat := by omega
                have h4 : c0.toNat < a0.toNat := by omega
                simp [h3, h4]
              · have h3 : ¬ a0.toNat < c0.toNat := by omega
                have h4 : ¬ c0.toNat < a0.toNat := by omega
                simp only [hbc, hcb, if_false] at h2
                simp only [h3, h4, if_false]
                exact ih bs cs h1 h2

theorem pyStrLt_irrefl (a : String) : pyStrLt a a = false :=
  strLtL_irrefl a.data

theorem pyStrLt_asymm (a b : String) (h : pyStrLt a b = true) : pyStrLt b a = false :=
  strLtL_asymm a.data b.data h

theorem pyStrLt_false_trans (a b c : String) (h1 : pyStrLt a b = false)
    (h2 : pyStrLt b c = false) : pyStrLt a c = false :=
  strLtL_false_trans a.data b.data c.data h1 h2

theorem mostRecentFirst_mem (xs : List Dict) :
    ∀ e, mostRecentFirst e xs = e ∨ mostRecentFirst e xs ∈ xs := by
  induction xs with
  | nil => intro e; exact Or.inl rfl
  | cons x xs ih =>
    intro e
    simp only [mostRecentFirst]
    rcases ih (if pyStrLt (scrapedAtKey e) (scrapedAtKey x) then x else e) with h | h
    · rw [h]
      by_cases hc : pyStrLt (scrapedAtKey e) (scrapedAtKey x) = true
      · rw [if_pos hc]
        exact Or.inr (List.mem_cons_self x xs)
      · rw [if_neg hc]
        exact Or.inl rfl
    · exact Or.inr (List.mem_cons_of_mem x h)

/-- The selected entry's key is never less than the accumulator's. -/
theorem mostRecentFirst_acc_notLt (xs : List Dict) :
    ∀ e, pyStrLt (scrapedAtKey (mostRecentFirst e xs)) (scrapedAtKey e) = false := by
  induction xs with
  | nil => intro e; exact pyStrLt_irrefl _
  | cons x xs ih =>
    intro e
    simp only [mostRecentFirst]
    by_cases hc : pyStrLt (scrapedAtKey e) (scrapedAtKey x) = true
    · rw [if_pos hc]
      exact pyStrLt_false_trans _ _ _ (ih x) (pyStrLt_asymm _ _ hc)
    · rw [if_neg hc]
      exact ih e

/-- The selected entry's key is never less than any listed entry's. -/
theorem mostRecentFirst_mem_notLt (xs : List Dict) :
    ∀ e x, x ∈ xs →
      pyStrLt (scrapedAtKey (mostRecentFirst e xs)) (scrapedAtKey x) = false := by
  induction xs with
  | nil => intro e x h; simp at h
  | cons y ys ih =>
    intro e x h
    simp only [mostRecentFirst]
    rcases List.mem_cons.mp h with rfl | h'
    · by_cases hc : pyStrLt (scrapedAtKey e) (scrapedAtKey x) = true
      · rw [if_pos hc]
        exact mostRecentFirst_acc_notLt ys x
      · rw [if_neg hc]
        have h2 : pyStrLt (scrapedAtKey e) (scrapedAtKey x) = false := by
          revert hc
          cases pyStrLt (scrapedAtKey e) (scrapedAtKey x) <;> simp
        exact pyStrLt_false_trans _ _ _ (mostRecentFirst_acc_notLt ys e) h2
    · exact ih _ x h'

theorem pickGroup_mem (l : List Dict) (h : l ≠ []) : pickGroup l ∈ l := by
  match l with
  | [e] => simp [pickGroup]
  | e :: x :: xs =>
    simp only [pickGroup]
    rcases mostRecentFirst_mem (x :: xs) e with he | hmem
    · rw [he]; exact List.mem_cons_self _ _
    · exact List.mem_cons_of_mem e hmem

/-- The kept entry of a group carries a scraped_at key that no group
member exceeds: it is the lexicographically greatest. -/
theorem pickGroup_notLt (l : List Dict) :
    ∀ x ∈ l, pyStrLt (scrapedAtKey (pickGroup l)) (scrapedAtKey x) = false := by
  match l with
  | [] => intro x h; simp at h
  | [e] =>
    intro x h
    simp only [List.mem_singleton] at h
    subst h
    exact pyStrLt_irrefl _
  | e :: y :: ys =>
    intro x h
    simp only [pickGroup]
    rcases List.mem_cons.mp h with rfl | h'
    · exact mostRecentFirst_acc_notLt _ x
    · exact mostRecentFirst_mem_notLt _ e x h'

theorem dedupKey_of_mem_groupOf (es : List Dict) (k : Option Val) (e : Dict)
    (h : e ∈ groupOf es k) : dedupKey e = k := by
  have := List.of_mem_filter h
  simpa using this

theorem groupOf_ne_nil (es : List Dict) (k : Option Val)
    (h : k ∈ keysInOrder es) : groupOf es k ≠ [] := by
  rcases mem_foldl_keysStep es [] k h with hks | ⟨e, he, rfl⟩
  · simp at hks
  · intro hnil
    have : e ∈ groupOf es (dedupKey e) := by
      unfold groupOf
      exact List.mem_filter.mpr ⟨he, by simp⟩
    rw [hnil] at this
    simp at this

/-! ## A small regex engine

The extractors use Python re.search with a fixed set of patterns.  We
embed exactly the constructs those patterns use: literal characters
(case sensitive or not, for the IGNORECASE patterns), the digit,
whitespace and any-character classes, character-class unions,
concatenation, alternation, greedy plus and star over a character
class, the lazy plus over a character class, the greedy option, a
single capturing group, lookahead and the end anchor.  The matcher
backtracks in Python's order (alternatives left to right; greedy
quantifiers longest first, lazy shortest first) and search tries start
positions left to right, so it picks the same match re.search picks. -/

inductive CharSet where
  | lit : Char → CharSet
  | litCI : Char → CharSet
  | digit : CharSet
  | space : CharSet
  | anyc : CharSet
  | union : CharSet → CharSet → CharSet

def CharSet.matchesC : CharSet → Char → Bool
  | .lit c, x => x == c
  | .litCI c, x => x.toLower == c.toLower
  | .digit, x => x.isDigit
  | .space, x => x.isWhitespace
  | .anyc, _ => true
  | .union a b, x => a.matchesC x || b.matchesC x

inductive Pat where
  | eps : Pat
  | cset : CharSet → Pat
  | seq : Pat → Pat → Pat
  | alt : Pat → Pat → Pat
  | rep1 : CharSet → Pat
  | rep0 : CharSet → Pat
  | lazy1 : CharSet → Pat
  | opt : Pat → Pat
  | grp : Pat → Pat
  | look : Pat → Pat
  | eos : Pat

/-- The group-1 capture of a successful match (none when the pattern
has no group, as in one of the online parking patterns). -/
abbrev MatchRes := Option (List Char)

/-- Try consuming n, n-1, ..., 1 characters (greedy backtracking). -/
def tryDescend (f : Nat → Option MatchRes) : Nat → Option MatchRes
  | 0 => none
  | n + 1 => (f (n + 1)).orElse fun _ => tryDescend f n

/-- Try consuming i, i+1, ... characters, fuel many attempts (lazy). -/
def tryAscFrom (f : Nat → Option MatchRes) : Nat → Nat → Option MatchRes
  | _, 0 => none
  | i, fuel + 1 => (f i).orElse fun _ => tryAscFrom f (i + 1) fuel

/-- Backtracking matcher in continuation style; k receives the rest of
the input and the capture so far. -/
def mat : Pat → List Char → MatchRes → (List Char → MatchRes → Option MatchRes) →
    Option MatchRes
  | .eps, s, cap, k => k s cap
  | .cset cs, s, cap, k =>
    match s with
    | [] => none
    | c :: rest => if cs.matchesC c then k rest cap else none
  | .seq p q, s, cap, k => mat p s cap (fun s2 c2 => mat q s2 c2 k)
  | .alt p q, s, cap, k => (mat p s cap k).orElse fun _ => mat q s cap k
  | .rep1 cs, s, cap, k =>
    tryDescend (fun i => k (s.drop i) cap) (s.takeWhile cs.matchesC).length
  | .rep0 cs, s, cap, k =>
    (tryDescend (fun i => k (s.drop i) cap) (s.takeWhile cs.matchesC).length).orElse
      fun _ => k s cap
  | .lazy1 cs, s, cap, k =>
    tryAscFrom (fun i => k (s.drop i) cap) 1 (s.takeWhile cs.matchesC).length
  | .opt p, s, cap, k => (mat p s cap k).orElse fun _ => k s cap
  | .grp p, s, cap, k => mat p s cap (fun s2 _ => k s2 (some (s.take (s.length - s2.length))))
  | .look p, s, cap, k => mat p s cap (fun _ _ => k s cap)
  | .eos, s, cap, k =>
    match s with
    | [] => k s cap
    | _ :: _ => none

/-- re.search: try a match starting at each position, leftmost first. -/
def searchIn (p : Pat) : List Char → Option MatchRes
  | [] => mat p [] none (fun _ cap => some cap)
  | c :: rest => (mat p (c :: rest) none (fun _ cap => some cap)).orElse
      fun _ => searchIn p rest

/-- int() of a captured digit run. -/
def digitsToNat (l : List Char) : Nat :=
  l.foldl (fun n c => n * 10 + (c.toNat - 48)) 0

/-- re.search returning the group-1 capture as a string. -/
def reSearchCap (p : Pat) (s : String) : Option String :=
  match searchIn p s.data with
  | some (some ds) => some (String.mk ds)
  | _ => none

/-- re.search + int(match.group(1)) for a digit-run group. -/
def reSearchNat (p : Pat) (s : String) : Option Nat :=
  match searchIn p s.data with
  | some (some ds) => some (digitsToNat ds)
  | _ => none

/-- Python str.lower() (the texts here are ASCII). -/
def pyLower (s : String) : String :=
  String.mk (s.data.map Char.toLower)

/-- Whether needle occurs as a contiguous segment of the list. -/
def containsSeg (needle : List Char) : List Char → Bool
  | [] => needle.isEmpty
  | c :: rest => needle.isPrefixOf (c :: rest) || containsSeg needle rest

/-- Python substring test: needle in hay. -/
def pyContains (hay needle : String) : Bool :=
  containsSeg needle.data hay.data

/-- Python str.title() for the keyword lists: a letter that follows a
non-letter is uppercased, other letters lowercased. -/
def pyTitle (s : String) : String :=
  String.mk (s.data.foldl
    (fun (st : List Char × Bool) c =>
      if c.isAlpha then
        (st.1 ++ [if st.2 then c.toLower else c.toUpper], true)
      else
        (st.1 ++ [c], false))
    ([], false)).1

def strPat (s : String) : Pat :=
  s.data.foldr (fun c acc => Pat.seq (Pat.cset (CharSet.lit c)) acc) Pat.eps

def strPatCI (s : String) : Pat :=
  s.data.foldr (fun c acc => Pat.seq (Pat.cset (CharSet.litCI c)) acc) Pat.eps

def seqP (l : List Pat) : Pat :=
  l.foldr Pat.seq Pat.eps

def wsP : Pat := Pat.rep1 CharSet.space
def ws0P : Pat := Pat.rep0 CharSet.space
def colonWsP : Pat := Pat.rep1 (CharSet.union (CharSet.lit ':') CharSet.space)
def digitsGrp : Pat := Pat.grp (Pat.rep1 CharSet.digit)
def commaDigitsGrp : Pat :=
  Pat.grp (Pat.seq (Pat.rep1 CharSet.digit)
    (Pat.opt (Pat.seq (Pat.cset (CharSet.lit ',')) (Pat.rep1 CharSet.digit))))
def floatGrp : Pat :=
  Pat.grp (Pat.seq (Pat.rep1 CharSet.digit)
    (Pat.opt (Pat.seq (Pat.cset (CharSet.lit '.')) (Pat.rep1 CharSet.digit))))

/-! ### The parking-spot patterns

The improved parking block of both scrapers searches
page_text.lower(), so these patterns are applied case-sensitively to a
lowered text, exactly as the source does. -/

def parkPat1 : Pat :=
  seqP [digitsGrp, wsP, strPat "spot", Pat.opt (strPat "s"), wsP, strPat "per", wsP,
    strPat "unit"]
def parkPat2 : Pat :=
  seqP [strPat "parking", wsP, strPat "spots", colonWsP, digitsGrp, wsP, strPat "spot"]
def parkPat3 : Pat :=
  seqP [strPat "total", wsP, strPat "property", wsP, strPat "parking", wsP,
    strPat "spots", colonWsP, digitsGrp]
def parkPat4 : Pat :=
  seqP [digitsGrp, wsP, strPat "parking", wsP,
    Pat.alt (strPat "spot") (Pat.alt (strPat "stall") (strPat "space")),
    Pat.opt (strPat "s")]
def parkPat5 : Pat :=
  seqP [digitsGrp, wsP,
    Pat.alt (strPat "titled") (Pat.alt (strPat "underground")
      (Pat.alt (strPat "surface") (Pat.alt (strPat "assigned") (strPat "reserved")))),
    wsP, strPat "parking"]
/-- The online-only pattern for word-spelled stalls; note it has no
capturing group. -/
def parkPatWord : Pat :=
  seqP [Pat.alt (strPat "two") (Pat.alt (strPat "three")
      (Pat.alt (strPat "four") (strPat "five"))),
    wsP, strPat "parking", wsP, strPat "stall", Pat.opt (strPat "s")]
def parkPat7 : Pat :=
  seqP [strPat "parking", colonWsP, digitsGrp]
def parkPat8 : Pat :=
  seqP [digitsGrp, wsP, strPat "stall", Pat.opt (strPat "s"), wsP, strPat "included"]

/-- The pattern list of scrape_details_parallel.py (online). -/
def onlineParkingPatterns : List Pat :=
  [parkPat1, parkPat2, parkPat3, parkPat4, parkPat5, parkPatWord, parkPat7, parkPat8]

/-- The pattern list of scrape_offline_parallel.py (offline): same
order, without the group-less word pattern. -/
def offlineParkingPatterns : List Pat :=
  [parkPat1, parkPat2, parkPat3, parkPat4, parkPat5, parkPat7, parkPat8]

/-- Outcome of the numeric-pattern loop: first match with a plausible
count wins, a match on a group-less pattern raises IndexError at
match.group(1), otherwise the loop falls through. -/
inductive ScanResult where
  | found : Nat → ScanResult
  | noMatchAll : ScanResult
  | raised : ScanResult
deriving DecidableEq, Repr

def scanParkingPatterns : List Pat → String → ScanResult
  | [], _ => ScanResult.noMatchAll
  | p :: ps, s =>
    match searchIn p s.data with
    | none => scanParkingPatterns ps s
    | some none => ScanResult.raised
    | some (some ds) =>
      let n := digitsToNat ds
      if 0 < n && n < 100 then ScanResult.found n else scanParkingPatterns ps s

def wordNumbers : List (String × Nat) :=
  [("one", 1), ("two", 2), ("three", 3), ("four", 4), ("five", 5), ("six", 6),
    ("seven", 7), ("eight", 8)]

def wordFallback (searchText : String) : Option Nat :=
  wordNumbers.findSome? fun wn =>
    if pyContains searchText (wn.1 ++ " parking") || pyContains searchText (wn.1 ++ " stall")
    then some wn.2 else none

/-- Python falsiness of the parking value: None and 0 are falsy. -/
def pyFalsyNum : Option Nat → Bool
  | none => true
  | some n => n == 0

/-- The improved parking block (guard, numeric-pattern loop inside a
try that swallows IndexError leaving the prior value, then the
word-number fallback).  p0 is the value the earlier extraction left. -/
def parkingImproved (pats : List Pat) (p0 : Option Nat) (searchText : String) :
    Option Nat :=
  if pyFalsyNum p0 then
    match scanParkingPatterns pats searchText with
    | ScanResult.found n => some n
    | ScanResult.raised => p0
    | ScanResult.noMatchAll =>
      match wordFallback searchText with
      | some n => some n
      | none => p0
  else p0


/-! ### The remaining extraction patterns -/

/-- r'(\d+)\s*unit[s]?' with IGNORECASE. -/
def unitsAvailPat : Pat :=
  seqP [digitsGrp, ws0P, strPatCI "unit", Pat.opt (strPatCI "s")]
/-- r'(\d+)\s*Bed' with IGNORECASE. -/
def bedPatBed : Pat := seqP [digitsGrp, ws0P, strPatCI "bed"]
/-- r'(\d+)\s*BR' with IGNORECASE. -/
def bedPatBR : Pat := seqP [digitsGrp, ws0P, strPatCI "br"]
/-- r'(\d+)\s*Bedroom' with IGNORECASE. -/
def bedPatBedroom : Pat := seqP [digitsGrp, ws0P, strPatCI "bedroom"]
def cardBedPatterns : List Pat := [bedPatBed, bedPatBR, bedPatBedroom]
/-- r'(\d+(?:\.\d+)?)\s*Bath' with IGNORECASE. -/
def bathPat1 : Pat := seqP [floatGrp, ws0P, strPatCI "bath"]
/-- r'(\d+(?:\.\d+)?)\s*BA' with IGNORECASE. -/
def bathPat2 : Pat := seqP [floatGrp, ws0P, strPatCI "ba"]
/-- r'(\d+(?:,\d+)?)\s*(?:sq\.?\s*)?ft' with IGNORECASE. -/
def sqftPat : Pat :=
  seqP [commaDigitsGrp, ws0P,
    Pat.opt (seqP [strPatCI "sq", Pat.opt (strPat "."), ws0P]), strPatCI "ft"]
/-- r'\$\s*(\d+(?:,\d+)?)'. -/
def pricePat : Pat :=
  seqP [Pat.cset (CharSet.lit '$'), ws0P, commaDigitsGrp]
/-- r'(\d+)\s*(bedroom|bed|bd)' with IGNORECASE (only group 1 is used). -/
def sourceBedPat : Pat :=
  seqP [digitsGrp, ws0P,
    Pat.alt (strPatCI "bedroom") (Pat.alt (strPatCI "bed") (strPatCI "bd"))]
/-- r'(\d+)\s*spot' with IGNORECASE. -/
def sectionSpotPat : Pat := seqP [digitsGrp, ws0P, strPatCI "spot"]
/-- re.findall(r'\d+', text)[0] is the leftmost maximal digit run,
which is what searching this pattern returns. -/
def firstNumPat : Pat := Pat.grp (Pat.rep1 CharSet.digit)
/-- r'\(\d+\)$'. -/
def parenNumEndPat : Pat :=
  seqP [Pat.cset (CharSet.lit '('), Pat.rep1 CharSet.digit,
    Pat.cset (CharSet.lit ')'), Pat.eos]
/-- (?=Features|Amenities|Contact|$) with IGNORECASE ($ modelled as end
of input; the texts carry no trailing newline). -/
def descStopLook : Pat :=
  Pat.look (Pat.alt (strPatCI "features") (Pat.alt (strPatCI "amenities")
    (Pat.alt (strPatCI "contact") Pat.eos)))
/-- r'Description[:\s]+(.+?)(?=Features|Amenities|Contact|$)' with
IGNORECASE and DOTALL. -/
def descPat1 : Pat :=
  seqP [strPatCI "description", colonWsP, Pat.grp (Pat.lazy1 CharSet.anyc), descStopLook]
/-- r'About this property[:\s]+(.+?)(?=Features|Amenities|Contact|$)'
with IGNORECASE and DOTALL. -/
def descPat2 : Pat :=
  seqP [strPatCI "about this property", colonWsP, Pat.grp (Pat.lazy1 CharSet.anyc),
    descStopLook]
def descPatterns : List Pat := [descPat1, descPat2]

def utilCapList : List String :=
  ["Heat", "Water", "Electricity", "Hydro", "Gas", "Internet", "Cable", "Sewer"]
def utilKeyList : List String :=
  ["heat", "water", "electricity", "hydro", "gas", "internet", "cable"]
def amenKeyList : List String :=
  ["gym", "fitness", "pool", "laundry", "balcony", "patio", "dishwasher",
    "air conditioning", "elevator", "storage", "bike room", "concierge", "security",
    "guest suite"]
def buildingKeyList : List String :=
  ["apartment", "condo", "townhouse", "house", "duplex", "basement"]

def firstSomeNat (ps : List Pat) (s : String) : Option Nat :=
  ps.findSome? (fun p => reSearchNat p s)

def firstSomeCap (ps : List Pat) (s : String) : Option String :=
  ps.findSome? (fun p => reSearchCap p s)

def reSearchHit (p : Pat) (s : String) : Bool :=
  (searchIn p s.data).isSome

/-- Python s[:n] (the texts are ASCII so code points and characters
coincide). -/
def strTake (s : String) (n : Nat) : String :=
  String.mk (s.data.take n)

/-- Python s.split(chr(10))[0]. -/
def takeFirstLine (s : String) : String :=
  String.mk (s.data.takeWhile (fun c => !(c == '\n')))

def optNatV : Option Nat → Val
  | some n => Val.vn n
  | none => Val.vnull

def optStrV : Option String → Val
  | some s => Val.vs s
  | none => Val.vnull

def optFloatV : Option String → Val
  | some s => Val.vfloat s
  | none => Val.vnull

/-! ## The rendered page as the extractor sees it

extract_listing_details and extract_multi_unit_details only interact
with the environment through a fixed set of driver lookups; each
lookup that sits in its own try block is an optional field here (none
models the find raising NoSuchElementException), and each find_elements
call is a list of the found elements' texts. -/

/-- One `.units-wrap > .card.block` element: the optional
h3/.unit-type/strong heading and the card's text. -/
structure UnitCard where
  heading : Option String
  cardText : String
deriving DecidableEq, Repr

/-- The rendered page: the structural lookups the two extractors
perform, plus the capture timestamp the extraction run would produce
(datetime.now().isoformat()). -/
structure Page where
  hasUnitsWrap : Bool
  unitCards : List UnitCard
  h1Text : Option String
  bodyText : String
  pageSource : String
  utilSectionText : Option String
  parkingSectionText : Option String
  parkingElemTexts : List String
  descTexts : List (Option String)
  featuresSectionText : Option String
  now : String
deriving DecidableEq, Repr

/-- building_address: the stripped h1 text, or the 'Unknown' initial
value when the h1 lookup raises. -/
def buildingAddressOf (p : Page) : String :=
  match p.h1Text with
  | some t => t.trim
  | none => "Unknown"

/-- One unit record of extract_multi_unit_details, for the idx-th card
(idx counts from 1): the initial dict of the source with the fields the
card loop fills in. -/
def buildUnit (rid : String) (url : Val) (now addr : String) (idx : Nat)
    (card : UnitCard) : Dict :=
  let card_text := card.cardText
  let unit_type : String :=
    match card.heading with
    | some t => t.trim
    | none =>
      (if pyContains card_text "\n" then takeFirstLine card_text
       else strTake card_text 50).trim
  let units_available := reSearchNat unitsAvailPat card_text
  let beds0 := firstSomeNat cardBedPatterns card_text
  let beds :=
    match beds0 with
    | some b => some b
    | none =>
      if pyContains (pyLower card_text) "studio" || pyContains (pyLower card_text) "bachelor"
      then some 0 else none
  let baths := firstSomeCap [bathPat1, bathPat2] card_text
  let sqft := (reSearchCap sqftPat card_text).map
    (fun s => digitsToNat (s.data.filter (fun c => !(c == ','))))
  let price := (reSearchCap pricePat card_text).map
    (fun s => digitsToNat (s.data.filter (fun c => !(c == ','))))
  let utils := utilKeyList.filter (fun kw => pyContains (pyLower card_text) kw)
  let furnished :=
    if pyContains (pyLower card_text) "furnished" then
      if pyContains (pyLower card_text) "unfurnished" then "No" else "Yes"
    else "Unknown"
  [("ref_id", Val.vs (rid ++ "_unit_" ++ toString idx)),
   ("parent_ref_id", Val.vs rid), ("url", url), ("building_address", Val.vs addr),
   ("is_multi_unit", Val.vb true), ("unit_type", Val.vs unit_type),
   ("units_available", optNatV units_available), ("beds", optNatV beds),
   ("baths", optFloatV baths), ("sqft", optNatV sqft), ("price", optNatV price),
   ("utilities_included", Val.vlistS utils), ("furnished", Val.vs furnished),
   ("parking_spots", Val.vnull), ("amenities", Val.vlistS []),
   ("smoking_allowed", Val.vs "Unknown"), ("building_type", Val.vs "Apartment"),
   ("scraped_at", Val.vs now)]

/-- for idx, card in enumerate(unit_cards, 1): one unit per card (the
pure field extraction of a card cannot raise, so no card is skipped). -/
def buildUnitsFrom (rid : String) (url : Val) (now addr : String) (idx : Nat) :
    List UnitCard → List Dict
  | [] => []
  | c :: cs => buildUnit rid url now addr idx c :: buildUnitsFrom rid url now addr (idx + 1) cs

/-- extract_multi_unit_details: None when no unit cards are found,
otherwise the unit list (return units if units else None). -/
def extract_multi_unit_details (p : Page) (url : Val) (rid : String) :
    Option (List Dict) :=
  match p.unitCards with
  | [] => none
  | cards =>
    let units := buildUnitsFrom rid url p.now (buildingAddressOf p) 1 cards
    if units.isEmpty then none else some units

/-! ### The single-unit extraction path -/

/-- Floor-plans block: bedrooms from floor_plans[0].text. -/
def planBeds (p : Page) : Option Nat :=
  match p.unitCards.head? with
  | some c => reSearchNat bedPatBedroom c.cardText
  | none => none

/-- Floor-plans block: furnished status from floor_plans[0].text
(case-sensitive substring checks). -/
def planFurnished (p : Page) : Option String :=
  match p.unitCards.head? with
  | some c =>
    if pyContains c.cardText "Unfurnished" then some "Unfurnished"
    else if pyContains c.cardText "Furnished" then some "Furnished"
    else none
  | none => none

/-- beds after the page_source fallback and the bachelor/studio check. -/
def bedsOf (p : Page) : Option Nat :=
  match planBeds p with
  | some b => some b
  | none =>
    match reSearchNat sourceBedPat p.pageSource with
    | some b => some b
    | none =>
      if pyContains (pyLower p.pageSource) "bachelor"
          || pyContains (pyLower p.pageSource) "studio"
      then some 0 else none

/-- furnished after the whole-page fallback (always a string). -/
def furnishedOf (p : Page) : String :=
  match planFurnished p with
  | some s => s
  | none =>
    if pyContains (pyLower p.bodyText) "furnished" then
      if pyContains (pyLower p.bodyText) "unfurnished" then "Unfurnished" else "Furnished"
    else "Unknown"

/-- Utilities: the capitalized names found in the Utilities Included
section, else the keyword fallback over the lowered page text. -/
def utilitiesOf (p : Page) : List String :=
  match p.utilSectionText with
  | some t => utilCapList.filter (fun u => pyContains t u)
  | none =>
    utilKeyList.filterMap (fun kw =>
      if pyContains (pyLower p.bodyText) kw
          && (pyContains (pyLower p.bodyText) "included"
              || pyContains (pyLower p.bodyText) "paid")
      then some (pyTitle kw) else none)

/-- Fallback parking loop over the Parking elements: the first element
whose lowered text mentions parking and contains a number wins; an
element without a number does not break the loop. -/
def firstParkingElemNumber : List String → Option Nat
  | [] => none
  | t :: ts =>
    if pyContains (pyLower t) "parking" then
      match reSearchNat firstNumPat t with
      | some n => some n
      | none => firstParkingElemNumber ts
    else firstParkingElemNumber ts

/-- Parking from the Parking Spots section when that lookup succeeds
(the fallback loop runs only when the lookup raises, not when the
section merely lacks a number). -/
def parkingPrimary (p : Page) : Option Nat :=
  match p.parkingSectionText with
  | some t => reSearchNat sectionSpotPat t
  | none => firstParkingElemNumber p.parkingElemTexts

/-- Description selector loop: first found element whose stripped text
is longer than 20 characters. -/
def firstDescText : List (Option String) → Option String
  | [] => none
  | none :: rest => firstDescText rest
  | some t :: rest =>
    let s := t.trim
    if 20 < s.length then some s else firstDescText rest

/-- Description fallback patterns over the page text, capped at 1000
characters. -/
def descFromPatterns (page_text : String) : Option String :=
  descPatterns.findSome? (fun pat =>
    match reSearchCap pat page_text with
    | some cap =>
      let d := cap.trim
      if 20 < d.length then some (strTake d 1000) else none
    | none => none)

def descriptionOf (p : Page) : Option String :=
  match firstDescText p.descTexts with
  | some d => some d
  | none => descFromPatterns p.bodyText

/-- The line filter of the Features and Amenities section. -/
def amenLines (t : String) : List String :=
  (t.split (fun c => c == '\n')).filterMap (fun raw =>
    let line := raw.trim
    if !(line == "") && decide (2 < line.length) && decide (line.length < 50)
        && !(["Property", "Building", "Neighbourhood"].contains line)
        && !(reSearchHit parenNumEndPat line)
    then some line else none)

def amenitiesOf (p : Page) : List String :=
  match p.featuresSectionText with
  | some t => amenLines t
  | none =>
    amenKeyList.filterMap (fun kw =>
      if pyContains (pyLower p.bodyText) kw then some (pyTitle kw) else none)

/-- Smoking: substring checks on the raw (not lowered) page text, as in
the source. -/
def smokingOf (page_text : String) : Option String :=
  if pyContains page_text "no smoking" || pyContains page_text "non-smoking" then some "No"
  else if pyContains page_text "smoking allowed" then some "Yes"
  else none

/-- Building type: first keyword contained in the raw page text. -/
def buildingTypeOf (page_text : String) : Option String :=
  (buildingKeyList.find? (fun kw => pyContains page_text kw)).map pyTitle

/-- The single-unit details dict: the initial dict of
extract_listing_details with the values every following block leaves in
it (each block only overwrites its own fields, so assembling the final
values in the initial key order is the dict the function returns). -/
def singleDetails (p : Page) (url : Val) (rid : String) : Dict :=
  let parking := parkingImproved onlineParkingPatterns (parkingPrimary p) (pyLower p.bodyText)
  [("ref_id", Val.vs rid), ("url", url), ("scraped_at", Val.vs p.now),
   ("is_multi_unit", Val.vb false), ("beds", optNatV (bedsOf p)),
   ("parking_spots", optNatV parking), ("furnished", Val.vs (furnishedOf p)),
   ("utilities_included", Val.vlistS (utilitiesOf p)),
   ("amenities", Val.vlistS (amenitiesOf p)), ("pet_deposit", Val.vnull),
   ("smoking_allowed", optStrV (smokingOf p.bodyText)), ("appliances", Val.vlistS []),
   ("full_description", optStrV (descriptionOf p)),
   ("building_type", optStrV (buildingTypeOf p.bodyText)),
   ("available_date", Val.vnull), ("lease_term", Val.vnull)]

/-- What one driver.get of one item produced: a rendered page, or any
exception inside extract_listing_details (its outer except returns
None for all of them). -/
inductive Fetch where
  | page : Page → Fetch
  | err : Fetch

/-- The Python return value of extract_listing_details: None, a dict,
or a list of dicts. -/
inductive PyDetails where
  | pynone : PyDetails
  | dict : Dict → PyDetails
  | listOf : List Dict → PyDetails
deriving DecidableEq, Repr

/-- extract_listing_details: the multi-unit path when .units-wrap
exists and more than one unit card is found, else the single-unit
path; never raises past its boundary. -/
def extract_listing_details (f : Fetch) (url : Val) (rid : String) : PyDetails :=
  match f with
  | Fetch.err => PyDetails.pynone
  | Fetch.page p =>
    if p.hasUnitsWrap && decide (1 < p.unitCards.length) then
      match extract_multi_unit_details p url rid with
      | some us => PyDetails.listOf us
      | none => PyDetails.pynone
    else
      PyDetails.dict (singleDetails p url rid)

/-! ## The batch worker (scrape_batch_worker)

Per item the loop body can: raise before the extractor runs (the
listing lacks the link or ref_id key it subscripts, or any other
exception the inner except catches), or run extract_listing_details on
whatever the driver produced for that item.  The environment assigns
each batch position its driver outcome. -/

/-- What happens to one item of the batch. -/
inductive ItemRun where
  | raised : ItemRun
  | fetched : Fetch → ItemRun

/-- The per-item statistics block executed under stats_lock. -/
inductive ItemOutcome where
  | multiSuccess : Nat → ItemOutcome
  | singleSuccess : ItemOutcome
  | failure : ItemOutcome
deriving DecidableEq, Repr

/-- One iteration of the batch loop: the records appended to results
and the statistics block run for the item. -/
def processItem (r : ItemRun) (listing : Dict) : List Dict × ItemOutcome :=
  match r with
  | ItemRun.raised => ([listing], ItemOutcome.failure)
  | ItemRun.fetched f =>
    match dget listing "link", refIdOf listing with
    | some url, some rid =>
      match extract_listing_details f url rid with
      | PyDetails.listOf us =>
        (us.map (fun u => dmerge listing u), ItemOutcome.multiSuccess us.length)
      | PyDetails.dict d => ([dmerge listing d], ItemOutcome.singleSuccess)
      | PyDetails.pynone => ([listing], ItemOutcome.failure)
    | _, _ => ([listing], ItemOutcome.failure)

/-- The batch loop: results in batch order, outcomes in batch order. -/
def runBatchItems (env : Nat → ItemRun) : List Dict → List Dict × List ItemOutcome
  | [] => ([], [])
  | l :: ls =>
    let pr := processItem (env 0) l
    let rest := runBatchItems (fun i => env (i + 1)) ls
    (pr.1 ++ rest.1, pr.2 :: rest.2)

/-- scrape_batch_worker's returned results: the loop's results, or the
original batch unchanged when creating the Chrome session (the only
statement the inner per-item try does not guard) fails. -/
def scrape_batch_worker (setupOk : Bool) (env : Nat → ItemRun) (batch : List Dict) :
    List Dict :=
  if setupOk then (runBatchItems env batch).1 else batch

/-! ## Run statistics (the stats dict under stats_lock) -/

/-- The per-item counters of the stats dict (the fields a single item
outcome can touch). -/
structure Stats where
  completed : Nat
  success : Nat
  failed : Nat
  multi_unit_found : Nat
  total_units_found : Nat
deriving DecidableEq, Repr

def initStats : Stats := ⟨0, 0, 0, 0, 0⟩

/-- One with-stats_lock block of the worker: all counters an item
outcome touches are updated in one atomic step. -/
def applyOutcome (s : Stats) : ItemOutcome → Stats
  | ItemOutcome.multiSuccess units =>
    { s with
      completed := s.completed + 1
      success := s.success + 1
      multi_unit_found := s.multi_unit_found + 1
      total_units_found := s.total_units_found + units }
  | ItemOutcome.singleSuccess =>
    { s with completed := s.completed + 1, success := s.success + 1 }
  | ItemOutcome.failure =>
    { s with completed := s.completed + 1, failed := s.failed + 1 }

def isSuccessO : ItemOutcome → Bool
  | ItemOutcome.failure => false
  | _ => true

def isFailureO (o : ItemOutcome) : Bool :=
  !(isSuccessO o)

/-! ## Checkpointing in the orchestrator and in main

The as_completed loop of scrape_parallel extends the accumulation list
with each finished batch and calls save_progress when the accumulated
length is a multiple of batch_save (10 in the online variant).  main
then writes one final save of existing + new_listings; on
KeyboardInterrupt its handler evaluates the name new_listings, which is
unbound while scrape_parallel is still executing, so an interrupt
during the run raises NameError and writes nothing. -/

/-- The periodic saves of the as_completed loop: the list of snapshots
written, in order, and the final accumulation. -/
def accumulateBatches (batch_save : Nat) :
    List (List Dict) → List Dict → List (List Dict) × List Dict
  | [], acc => ([], acc)
  | r :: rs, acc =>
    let acc2 := acc ++ r
    let rest := accumulateBatches batch_save rs acc2
    ((if acc2.length % batch_save == 0 then acc2 :: rest.1 else rest.1), rest.2)

/-- How the online main terminates: normally, interrupted after
scrape_parallel returned, or interrupted while it was still running
(with the batch results that had been accumulated so far). -/
inductive RunEnd where
  | normal : RunEnd
  | interruptAfterRun : RunEnd
  | interruptDuringRun : List (List Dict) → RunEnd

/-- All checkpoint writes the online main performs for a run, and
whether it crashed out of the interrupt handler (the NameError on the
unbound new_listings).  batchResults are the per-batch worker results
in completion order. -/
def mainCheckpointWrites (existing : List Dict) (batchResults : List (List Dict))
    (batch_save : Nat) : RunEnd → List (List Dict) × Bool
  | RunEnd.normal =>
    let ar := accumulateBatches batch_save batchResults []
    (ar.1 ++ [existing ++ ar.2], false)
  | RunEnd.interruptAfterRun =>
    let ar := accumulateBatches batch_save batchResults []
    (ar.1 ++ (if ar.2.isEmpty then [] else [existing ++ ar.2]), false)
  | RunEnd.interruptDuringRun completed =>
    let ar := accumulateBatches batch_save completed []
    (ar.1, true)

/-! ## Resume-mode skip filter (main, force_rescrape false)

scraped_ids = the ref_id values of the existing results;
all_listings keeps exactly the listings whose ref_id is not among
them. -/

def resumeFilter (existing all_listings : List Dict) : List Dict :=
  let scraped_ids := existing.map (fun d => dget d "ref_id")
  all_listings.filter (fun l => decide (¬ dget l "ref_id" ∈ scraped_ids))

/-! ## Claim theorems -/

/-- C2 (counterexample): for the ten-item backlog 0..9 and 3 workers
the source partition uses batch_size = max(1, 10 // 3) = 3 and
produces 4 batches, refuting the claim that the partition produces at
most W batches (of size ceil(len(B)/W) except a smaller final one). -/
theorem c2_partition_counterexample :
    ¬ ((partitionBacklog (List.range 10) 3).length ≤ 3) := by decide

/-- C2 (amended): for every backlog B and worker count W, the partition
produces ceil(len(B) / max(1, len(B) // W)) contiguous batches (which
can exceed W), each of size max(1, len(B) // W) except a possibly
smaller (but nonempty) final batch. -/
theorem c2_partition_sizes {α : Type} (B : List α) (W : Nat) :
    (partitionBacklog B W).length
        = (B.length + batchSizeOf B.length W - 1) / batchSizeOf B.length W
    ∧ (∀ b ∈ (partitionBacklog B W).dropLast, b.length = batchSizeOf B.length W)
    ∧ (∀ b ∈ partitionBacklog B W, 1 ≤ b.length ∧ b.length ≤ batchSizeOf B.length W) := by
  unfold partitionBacklog batchSizeOf
  exact ⟨chunksOf_length _ (le_max_left 1 _) B,
    chunksOf_dropLast_length _ (le_max_left 1 _) B,
    chunksOf_mem_length _ (le_max_left 1 _) B⟩

/-- Witness for the amended C2 at the backlog of three items and two
workers: the batch of the third item is nonempty and within the batch
size. -/
theorem c2_partition_sizes_witness :
    1 ≤ ([2] : List Nat).length ∧ ([2] : List Nat).length ≤ batchSizeOf 3 2 :=
  (c2_partition_sizes [0, 1, 2] 2).2.2 [2] (by decide)

/-- C3: the concatenation of the produced batches in the produced order
is exactly the backlog (so the batches are contiguous non-overlapping
slices whose union is the backlog with no duplication), and the
concatenation of the batches in any other order is a permutation of the
backlog. -/
theorem c3_partition_concat {α : Type} (B : List α) (W : Nat) :
    (partitionBacklog B W).flatten = B
    ∧ ∀ p : List (List α), (partitionBacklog B W).Perm p → p.flatten.Perm B := by
  have hflat : (partitionBacklog B W).flatten = B :=
    chunksOf_flatten _ (le_max_left 1 _) B
  refine ⟨hflat, ?_⟩
  intro p hp
  have h1 := (hp.symm).flatten
  rw [hflat] at h1
  exact h1

/-- Witness for C3: reordering the three batches of the backlog 1,2,3
with two workers still concatenates to a permutation of the backlog. -/
theorem c3_partition_concat_witness :
    ([[2], [1], [3]] : List (List Nat)).flatten.Perm [1, 2, 3] :=
  (c3_partition_concat [1, 2, 3] 2).2 [[2], [1], [3]] (by decide)

/-- The counters after any sequence of atomic per-item statistics
blocks, starting from any state. -/
theorem foldl_applyOutcome (os : List ItemOutcome) :
    ∀ s : Stats, (os.foldl applyOutcome s).completed = s.completed + os.length
      ∧ (os.foldl applyOutcome s).success = s.success + os.countP isSuccessO
      ∧ (os.foldl applyOutcome s).failed = s.failed + os.countP isFailureO := by
  induction os with
  | nil => intro s; simp
  | cons o os ih =>
    intro s
    obtain ⟨h1, h2, h3⟩ := ih (applyOutcome s o)
    have hc : (applyOutcome s o).completed = s.completed + 1 := by
      cases o <;> rfl
    have hs : (applyOutcome s o).success
        = s.success + (if isSuccessO o then 1 else 0) := by
      cases o <;> rfl
    have hf : (applyOutcome s o).failed
        = s.failed + (if isFailureO o then 1 else 0) := by
      cases o <;> rfl
    refine ⟨?_, ?_, ?_⟩
    · simp only [List.foldl_cons, List.length_cons]
      rw [h1, hc]
      omega
    · simp only [List.foldl_cons, List.countP_cons]
      rw [h2, hs]
      cases hio : isSuccessO o <;> (simp [hio]; try omega)
    · simp only [List.foldl_cons, List.countP_cons]
      rw [h3, hf]
      cases hio : isFailureO o <;> (simp [hio]; try omega)

/-- C9: each item outcome updates all its counters in one block under
stats_lock, so after any interleaving of N success blocks and M failure
blocks the counters read completed = N + M, success = N, failed = M,
and a reader (which also takes the lock, hence observes the state after
some prefix of blocks) always sees completed = success + failed, never
a partially applied item. -/
theorem c9_stats_aggregation (os : List ItemOutcome) (N M : Nat)
    (hN : os.countP isSuccessO = N) (hM : os.countP isFailureO = M) :
    (os.foldl applyOutcome initStats).completed = N + M
    ∧ (os.foldl applyOutcome initStats).success = N
    ∧ (os.foldl applyOutcome initStats).failed = M
    ∧ ∀ pre suf : List ItemOutcome, os = pre ++ suf →
        (pre.foldl applyOutcome initStats).completed
          = (pre.foldl applyOutcome initStats).success
            + (pre.foldl applyOutcome initStats).failed := by
  have hsplit : ∀ l : List ItemOutcome, l.length = l.countP isSuccessO + l.countP isFailureO := by
    intro l
    induction l with
    | nil => rfl
    | cons o os ih =>
      simp only [List.length_cons, List.countP_cons, ih]
      cases hio : isSuccessO o <;> simp [isFailureO, hio] <;> omega
  obtain ⟨h1, h2, h3⟩ := foldl_applyOutcome os initStats
  refine ⟨?_, ?_, ?_, ?_⟩
  · rw [h1, hsplit os, hN, hM]
    simp [initStats]
  · rw [h2, hN]; simp [initStats]
  · rw [h3, hM]; simp [initStats]
  · intro pre suf hsplit2
    obtain ⟨g1, g2, g3⟩ := foldl_applyOutcome pre initStats
    rw [g1, g2, g3, hsplit pre]
    simp [initStats]

/-- Witness for C9 at a concrete interleaving of two successes (one of
them a multi-unit fan-out) and one failure. -/
theorem c9_stats_aggregation_witness :
    (([ItemOutcome.singleSuccess, ItemOutcome.failure,
        ItemOutcome.multiSuccess 2]).foldl applyOutcome initStats).completed = 2 + 1
    ∧ (([ItemOutcome.singleSuccess, ItemOutcome.failure,
        ItemOutcome.multiSuccess 2]).foldl applyOutcome initStats).success = 2
    ∧ (([ItemOutcome.singleSuccess, ItemOutcome.failure,
        ItemOutcome.multiSuccess 2]).foldl applyOutcome initStats).failed = 1 := by
  have h := c9_stats_aggregation
    [ItemOutcome.singleSuccess, ItemOutcome.failure, ItemOutcome.multiSuccess 2]
    2 1 (by decide) (by decide)
  exact ⟨h.1, h.2.1, h.2.2.1⟩

theorem dedupKey_pickGroup (es : List Dict) (k : Option Val)
    (h : k ∈ keysInOrder es) : dedupKey (pickGroup (groupOf es k)) = k :=
  dedupKey_of_mem_groupOf es k _ (pickGroup_mem _ (groupOf_ne_nil es k h))

def recX1 : Dict := [("ref_id", Val.vs "X"), ("scraped_at", Val.vs "2024-01-01T00:00:00")]
def recX2 : Dict := [("ref_id", Val.vs "X"), ("scraped_at", Val.vs "2024-02-02T00:00:00")]
def recX3 : Dict := [("ref_id", Val.vs "X"), ("scraped_at", Val.vs "2024-03-03T00:00:00")]
def recX4 : Dict := [("ref_id", Val.vs "X"), ("scraped_at", Val.vs "2024-04-04T00:00:00")]
def recX5 : Dict := [("ref_id", Val.vs "X"), ("scraped_at", Val.vs "2024-05-05T00:00:00")]
def recY : Dict := [("ref_id", Val.vs "Y"), ("scraped_at", Val.vs "2024-01-15T00:00:00")]

/-- C7: deduplication keeps exactly one record per identifier (the kept
records' keys are exactly the distinct input identifiers, and every
input record's identifier is covered); a singleton group is kept
unchanged; the kept record of any group carries the lexicographically
greatest capture-timestamp string of the group; two records for X with
timestamps T1 < T2 dedupe to the T2 record alone, and five records for
X plus one for Y dedupe to exactly two records. -/
theorem c7_deduplication :
    (∀ es : List Dict,
        (deduplicate_database es).map dedupKey = keysInOrder es
        ∧ (keysInOrder es).Nodup
        ∧ ∀ e ∈ es, dedupKey e ∈ keysInOrder es)
    ∧ (∀ es : List Dict, ∀ k : Option Val, ∀ e : Dict,
        groupOf es k = [e] → pickGroup (groupOf es k) = e)
    ∧ (∀ es : List Dict, ∀ k : Option Val, ∀ x ∈ groupOf es k,
        pyStrLt (scrapedAtKey (pickGroup (groupOf es k))) (scrapedAtKey x) = false)
    ∧ deduplicate_database [recX1, recX2] = [recX2]
    ∧ (deduplicate_database [recX1, recX2, recX3, recX4, recX5, recY]).length = 2 := by
  refine ⟨?_, ?_, ?_, by decide, by decide⟩
  · intro es
    refine ⟨?_, foldl_keysStep_nodup es [] List.nodup_nil,
      fun e he => mem_foldl_keysStep_of_mem es [] e he⟩
    unfold deduplicate_database
    rw [List.map_map]
    have h1 : ∀ k ∈ keysInOrder es,
        (dedupKey ∘ fun k => pickGroup (groupOf es k)) k = id k := by
      intro k hk
      simp only [Function.comp, id]
      exact dedupKey_pickGroup es k hk
    rw [List.map_congr_left h1, List.map_id]
  · intro es k e h
    rw [h]
    rfl
  · intro es k x hx
    exact pickGroup_notLt _ x hx

/-- Witness for C7: in the two-record group for X, the kept record's
timestamp is not lexicographically below the older record's. -/
theorem c7_deduplication_witness :
    pyStrLt (scrapedAtKey (pickGroup (groupOf [recX1, recX2] (some (Val.vs "X")))))
      (scrapedAtKey recX1) = false :=
  c7_deduplication.2.2.1 [recX1, recX2] (some (Val.vs "X")) recX1 (by decide)

/-! ## Lemmas about the extractor records -/

theorem dget_buildUnit_ref_id (rid : String) (url : Val) (now addr : String)
    (idx : Nat) (card : UnitCard) :
    dget (buildUnit rid url now addr idx card) "ref_id"
      = some (Val.vs (rid ++ "_unit_" ++ toString idx)) := rfl

theorem dget_buildUnit_parent (rid : String) (url : Val) (now addr : String)
    (idx : Nat) (card : UnitCard) :
    dget (buildUnit rid url now addr idx card) "parent_ref_id"
      = some (Val.vs rid) := rfl

theorem dget_buildUnit_addr (rid : String) (url : Val) (now addr : String)
    (idx : Nat) (card : UnitCard) :
    dget (buildUnit rid url now addr idx card) "building_address"
      = some (Val.vs addr) := rfl

theorem dget_singleDetails_ref_id (p : Page) (url : Val) (rid : String) :
    dget (singleDetails p url rid) "ref_id" = some (Val.vs rid) := rfl

theorem dget_singleDetails_is_multi (p : Page) (url : Val) (rid : String) :
    dget (singleDetails p url rid) "is_multi_unit" = some (Val.vb false) := rfl

theorem mem_buildUnitsFrom (rid : String) (url : Val) (now addr : String) :
    ∀ (cards : List UnitCard) (idx : Nat) (u : Dict),
      u ∈ buildUnitsFrom rid url now addr idx cards →
      ∃ j card, u = buildUnit rid url now addr j card := by
  intro cards
  induction cards with
  | nil => intro idx u hu; simp [buildUnitsFrom] at hu
  | cons c cs ih =>
    intro idx u hu
    simp only [buildUnitsFrom] at hu
    rcases List.mem_cons.mp hu with rfl | hu'
    · exact ⟨idx, c, rfl⟩
    · exact ih (idx + 1) u hu'

theorem extract_multi_some (p : Page) (url : Val) (rid : String)
    (hne : p.unitCards ≠ []) :
    extract_multi_unit_details p url rid
      = some (buildUnitsFrom rid url p.now (buildingAddressOf p) 1 p.unitCards) := by
  unfold extract_multi_unit_details
  cases hc : p.unitCards with
  | nil => exact absurd hc hne
  | cons x xs => rfl

theorem extract_listing_multi (p : Page) (url : Val) (rid : String)
    (hwrap : p.hasUnitsWrap = true) (hgt : 1 < p.unitCards.length) :
    extract_listing_details (Fetch.page p) url rid
      = PyDetails.listOf
          (buildUnitsFrom rid url p.now (buildingAddressOf p) 1 p.unitCards) := by
  show (if (p.hasUnitsWrap && decide (1 < p.unitCards.length)) = true then
      match extract_multi_unit_details p url rid with
      | some us => PyDetails.listOf us
      | none => PyDetails.pynone
    else PyDetails.dict (singleDetails p url rid))
    = PyDetails.listOf (buildUnitsFrom rid url p.now (buildingAddressOf p) 1 p.unitCards)
  have hcond : (p.hasUnitsWrap && decide (1 < p.unitCards.length)) = true := by
    rw [hwrap]
    simp [hgt]
  rw [if_pos hcond, extract_multi_some p url rid (by
    intro h
    rw [h] at hgt
    simp at hgt)]

theorem extract_listing_single (p : Page) (url : Val) (rid : String)
    (hcond : (p.hasUnitsWrap && decide (1 < p.unitCards.length)) = false) :
    extract_listing_details (Fetch.page p) url rid
      = PyDetails.dict (singleDetails p url rid) := by
  show (if (p.hasUnitsWrap && decide (1 < p.unitCards.length)) = true then
      match extract_multi_unit_details p url rid with
      | some us => PyDetails.listOf us
      | none => PyDetails.pynone
    else PyDetails.dict (singleDetails p url rid))
    = PyDetails.dict (singleDetails p url rid)
  rw [if_neg (by rw [hcond]; simp)]

/-- Appending different suffixes to the same string gives different
strings. -/
theorem append_ne_of_suffix_ne (a : String) {x y : String} (h : x ≠ y) :
    a ++ x ≠ a ++ y := by
  intro he
  apply h
  have hd := congrArg String.data he
  rw [String.data_append, String.data_append] at hd
  exact String.ext (List.append_cancel_left hd)

/-- A string extended by a nonempty suffix differs from the string. -/
theorem append_ne_self (a : String) {x : String} (h : x.data ≠ []) : a ++ x ≠ a := by
  intro he
  apply h
  have hd := congrArg String.data he
  rw [String.data_append] at hd
  have hlen := congrArg List.length hd
  rw [List.length_append] at hlen
  have hx : x.data.length = 0 := by omega
  exact List.length_eq_zero.mp hx

/-- C4: a page with exactly 3 detected unit-card containers extracts to
exactly 3 records with the distinct composite identifiers
rid_unit_1, rid_unit_2, rid_unit_3, each carrying the shared building
address; a page with exactly 1 detected container takes the single-unit
path and extracts to exactly 1 record that is not marked multi-unit. -/
theorem c4_multi_unit_fanout (p : Page) (rid : String) (url : Val) :
    (p.hasUnitsWrap = true → p.unitCards.length = 3 →
      ∃ us : List Dict,
        extract_listing_details (Fetch.page p) url rid = PyDetails.listOf us
        ∧ us.length = 3
        ∧ us.map (fun u => dget u "ref_id")
            = [some (Val.vs (rid ++ "_unit_" ++ "1")),
               some (Val.vs (rid ++ "_unit_" ++ "2")),
               some (Val.vs (rid ++ "_unit_" ++ "3"))]
        ∧ (us.map (fun u => dget u "ref_id")).Nodup
        ∧ ∀ u ∈ us, dget u "building_address" = some (Val.vs (buildingAddressOf p)))
    ∧ (p.unitCards.length = 1 →
      ∃ d : Dict,
        extract_listing_details (Fetch.page p) url rid = PyDetails.dict d
        ∧ dget d "is_multi_unit" = some (Val.vb false)) := by
  constructor
  · intro hwrap hlen
    obtain ⟨a, b, c, hcards⟩ := List.length_eq_three.mp hlen
    refine ⟨buildUnitsFrom rid url p.now (buildingAddressOf p) 1 p.unitCards,
      extract_listing_multi p url rid hwrap (by omega), ?_, ?_, ?_, ?_⟩
    · rw [hcards]
      rfl
    · rw [hcards]
      rfl
    · rw [hcards]
      have h12 := append_ne_of_suffix_ne (rid ++ "_unit_")
        (show ("1" : String) ≠ "2" by decide)
      have h13 := append_ne_of_suffix_ne (rid ++ "_unit_")
        (show ("1" : String) ≠ "3" by decide)
      have h23 := append_ne_of_suffix_ne (rid ++ "_unit_")
        (show ("2" : String) ≠ "3" by decide)
      show ([some (Val.vs (rid ++ "_unit_" ++ "1")),
             some (Val.vs (rid ++ "_unit_" ++ "2")),
             some (Val.vs (rid ++ "_unit_" ++ "3"))] : List (Option Val)).Nodup
      simp [List.nodup_cons, h12, h13, h23]
    · intro u hu
      rw [hcards] at hu
      simp only [buildUnitsFrom, List.mem_cons, List.not_mem_nil, or_false] at hu
      rcases hu with rfl | rfl | rfl <;> rfl
  · intro hlen1
    refine ⟨singleDetails p url rid, ?_, rfl⟩
    apply extract_listing_single
    rw [hlen1]
    simp

def cardA : UnitCard := ⟨some "1 Bedroom Apartment", "1 Bedroom Apartment\n$1200"⟩
def cardB : UnitCard := ⟨some "2 Bedroom Apartment", "2 Bedroom Apartment\n$1500"⟩
def cardC : UnitCard := ⟨none, "Studio\n$900"⟩

def page3 : Page :=
  { hasUnitsWrap := true, unitCards := [cardA, cardB, cardC],
    h1Text := some "100 Main St", bodyText := "", pageSource := "",
    utilSectionText := none, parkingSectionText := none, parkingElemTexts := [],
    descTexts := [], featuresSectionText := none, now := "2024-01-01T00:00:00" }

def page1 : Page :=
  { hasUnitsWrap := true, unitCards := [cardA],
    h1Text := some "100 Main St", bodyText := "", pageSource := "",
    utilSectionText := none, parkingSectionText := none, parkingElemTexts := [],
    descTexts := [], featuresSectionText := none, now := "2024-01-01T00:00:00" }

/-- Witness for C4 at a concrete three-card page and a concrete
one-card page. -/
theorem c4_multi_unit_fanout_witness :
    (∃ us : List Dict,
        extract_listing_details (Fetch.page page3) (Val.vs "u") "A" = PyDetails.listOf us
        ∧ us.length = 3
        ∧ us.map (fun u => dget u "ref_id")
            = [some (Val.vs ("A" ++ "_unit_" ++ "1")),
               some (Val.vs ("A" ++ "_unit_" ++ "2")),
               some (Val.vs ("A" ++ "_unit_" ++ "3"))]
        ∧ (us.map (fun u => dget u "ref_id")).Nodup
        ∧ ∀ u ∈ us, dget u "building_address" = some (Val.vs (buildingAddressOf page3)))
    ∧ (∃ d : Dict,
        extract_listing_details (Fetch.page page1) (Val.vs "u") "A" = PyDetails.dict d
        ∧ dget d "is_multi_unit" = some (Val.vb false)) :=
  ⟨(c4_multi_unit_fanout page3 "A" (Val.vs "u")).1 rfl rfl,
   (c4_multi_unit_fanout page1 "A" (Val.vs "u")).2 rfl⟩

theorem refIdOf_eq_some (l : Dict) (rid : String) :
    refIdOf l = some rid ↔ dget l "ref_id" = some (Val.vs rid) := by
  unfold refIdOf
  cases h : dget l "ref_id" with
  | none => simp
  | some v => cases v <;> simp

/-- The three shapes an extract_listing_details result can take. -/
theorem extract_listing_cases (f : Fetch) (url : Val) (rid : String) :
    extract_listing_details f url rid = PyDetails.pynone
    ∨ (∃ p, f = Fetch.page p
        ∧ extract_listing_details f url rid = PyDetails.dict (singleDetails p url rid))
    ∨ (∃ p, f = Fetch.page p ∧ p.unitCards ≠ []
        ∧ extract_listing_details f url rid
            = PyDetails.listOf
                (buildUnitsFrom rid url p.now (buildingAddressOf p) 1 p.unitCards)) := by
  cases f with
  | err => exact Or.inl rfl
  | page p =>
    by_cases hcond : (p.hasUnitsWrap && decide (1 < p.unitCards.length)) = true
    · rw [Bool.and_eq_true] at hcond
      have hgt : 1 < p.unitCards.length := of_decide_eq_true hcond.2
      have hne : p.unitCards ≠ [] := by
        intro h
        rw [h] at hgt
        simp at hgt
      exact Or.inr (Or.inr ⟨p, rfl, hne,
        extract_listing_multi p url rid hcond.1 hgt⟩)
    · exact Or.inr (Or.inl ⟨p, rfl,
        extract_listing_single p url rid (Bool.eq_false_iff.mpr hcond)⟩)

/-- Every batch item contributes at least one record to the worker's
results, and that record carries the item's identifier either as its
ref_id (single-unit success or failure) or as its parent_ref_id
(multi-unit fan-out). -/
theorem processItem_contributes (r : ItemRun) (l : Dict) :
    ∃ d ∈ (processItem r l).1,
      dget d "ref_id" = dget l "ref_id" ∨ dget d "parent_ref_id" = dget l "ref_id" := by
  cases r with
  | raised => exact ⟨l, by simp [processItem], Or.inl rfl⟩
  | fetched f =>
    cases hlink : dget l "link" with
    | none =>
      refine ⟨l, ?_, Or.inl rfl⟩
      simp [processItem, hlink]
    | some url =>
      cases hrid : refIdOf l with
      | none =>
        refine ⟨l, ?_, Or.inl rfl⟩
        simp [processItem, hlink, hrid]
      | some rid =>
        have hridget : dget l "ref_id" = some (Val.vs rid) :=
          (refIdOf_eq_some l rid).mp hrid
        rcases extract_listing_cases f url rid with hx | ⟨p, rfl, hx⟩ | ⟨p, rfl, hne, hx⟩
        · refine ⟨l, ?_, Or.inl rfl⟩
          simp [processItem, hlink, hrid, hx]
        · refine ⟨dmerge l (singleDetails p url rid), ?_, Or.inl ?_⟩
          · simp [processItem, hlink, hrid, hx]
          · rw [dget_dmerge, dget_singleDetails_ref_id, hridget]
        · cases hc : p.unitCards with
          | nil => exact absurd hc hne
          | cons c cs =>
            refine ⟨dmerge l (buildUnit rid url p.now (buildingAddressOf p) 1 c),
              ?_, Or.inr ?_⟩
            · simp [processItem, hlink, hrid, hx, hc, buildUnitsFrom]
            · rw [dget_dmerge, dget_buildUnit_parent, hridget]

theorem runBatchItems_results_mem :
    ∀ (batch : List Dict) (env : Nat → ItemRun) (l : Dict), l ∈ batch →
      ∃ d ∈ (runBatchItems env batch).1,
        dget d "ref_id" = dget l "ref_id" ∨ dget d "parent_ref_id" = dget l "ref_id" := by
  intro batch
  induction batch with
  | nil => intro env l hl; simp at hl
  | cons a rest ih =>
    intro env l hl
    simp only [runBatchItems]
    rcases List.mem_cons.mp hl with rfl | hl'
    · obtain ⟨d, hd, hor⟩ := processItem_contributes (env 0) l
      exact ⟨d, List.mem_append_left _ hd, hor⟩
    · obtain ⟨d, hd, hor⟩ := ih (fun i => env (i + 1)) l hl'
      exact ⟨d, List.mem_append_right _ hd, hor⟩

def lstX : Dict := [("ref_id", Val.vs "X"), ("link", Val.vs "u")]

def pageCx : Page :=
  { hasUnitsWrap := true, unitCards := [cardA, cardB],
    h1Text := some "100 Main St", bodyText := "", pageSource := "",
    utilSectionText := none, parkingSectionText := none, parkingElemTexts := [],
    descTexts := [], featuresSectionText := none, now := "2024-01-01T00:00:00" }

/-- C1 (counterexample): a one-item backlog whose page is a two-unit
multi-unit building produces a worker output in which no record carries
the backlog item's identifier X as its ref_id (the fan-out records
carry X_unit_1 and X_unit_2), so the output is not a superset of the
backlog by identifier. -/
theorem c1_counterexample :
    ¬ (some (Val.vs "X")
        ∈ (scrape_batch_worker true (fun _ => ItemRun.fetched (Fetch.page pageCx))
            [lstX]).map (fun d => dget d "ref_id")) := by decide

/-- C1 (amended): every backlog item contributes at least one record to
the batch worker's output on every run (merged on success, the original
on per-item failure, the whole original batch on a batch-level fatal
error), and that record carries the item's identifier either as its
ref_id or, for a multi-unit fan-out, as its parent_ref_id; the parent
identifier itself does not appear as a ref_id for multi-unit items. -/
theorem c1_superset (setupOk : Bool) (env : Nat → ItemRun) (batch : List Dict)
    (l : Dict) (hl : l ∈ batch) :
    ∃ d ∈ scrape_batch_worker setupOk env batch,
      dget d "ref_id" = dget l "ref_id" ∨ dget d "parent_ref_id" = dget l "ref_id" := by
  unfold scrape_batch_worker
  by_cases hs : setupOk = true
  · rw [if_pos hs]
    exact runBatchItems_results_mem batch env l hl
  · rw [if_neg hs]
    exact ⟨l, hl, Or.inl rfl⟩

/-- Witness for the amended C1 at a one-item batch whose fetch raises. -/
theorem c1_superset_witness :
    ∃ d ∈ scrape_batch_worker true (fun _ => ItemRun.raised) [recX1],
      dget d "ref_id" = dget recX1 "ref_id"
      ∨ dget d "parent_ref_id" = dget recX1 "ref_id" :=
  c1_superset true (fun _ => ItemRun.raised) [recX1] recX1 (by decide)

/-- Whether the loop body for this item takes the failure branch: the
body raises before extraction, or the extractor returns None. -/
def itemFails (r : ItemRun) (l : Dict) : Bool :=
  match r with
  | ItemRun.raised => true
  | ItemRun.fetched f =>
    match dget l "link", refIdOf l with
    | some url, some rid =>
      match extract_listing_details f url rid with
      | PyDetails.pynone => true
      | _ => false
    | _, _ => true

theorem processItem_fail (r : ItemRun) (l : Dict) (h : itemFails r l = true) :
    processItem r l = ([l], ItemOutcome.failure) := by
  cases r with
  | raised => rfl
  | fetched f =>
    cases hlink : dget l "link" with
    | none => simp [processItem, hlink]
    | some url =>
      cases hrid : refIdOf l with
      | none => simp [processItem, hlink, hrid]
      | some rid =>
        simp only [itemFails, hlink, hrid] at h
        cases hx : extract_listing_details f url rid with
        | pynone => simp [processItem, hlink, hrid, hx]
        | dict d => rw [hx] at h; simp at h
        | listOf us => rw [hx] at h; simp at h

theorem runBatchItems_append :
    ∀ (xs ys : List Dict) (env : Nat → ItemRun),
      runBatchItems env (xs ++ ys)
        = ((runBatchItems env xs).1
              ++ (runBatchItems (fun i => env (i + xs.length)) ys).1,
           (runBatchItems env xs).2
              ++ (runBatchItems (fun i => env (i + xs.length)) ys).2) := by
  intro xs
  induction xs with
  | nil =>
    intro ys env
    simp [runBatchItems]
  | cons a xs ih =>
    intro ys env
    simp only [List.cons_append, runBatchItems, List.length_cons, List.append_eq]
    rw [ih ys (fun i => env (i + 1))]
    simp only [List.cons_append, List.append_assoc]
    rfl

/-- C6: when the loop body for one batch item fails (it raises, or the
extractor returns None), the worker appends exactly the original
unmerged record for that item, records exactly one failure outcome for
it (whose statistics block increments completed and failed together),
and the items before and after it are processed exactly as they would
otherwise be: a per-item failure never aborts the batch. -/
theorem c6_item_failure_local (env : Nat → ItemRun) (xs : List Dict) (l : Dict)
    (ys : List Dict) (hfail : itemFails (env xs.length) l = true) :
    (runBatchItems env (xs ++ l :: ys)).1
        = (runBatchItems env xs).1
          ++ l :: (runBatchItems (fun i => env (i + (xs.length + 1))) ys).1
    ∧ (runBatchItems env (xs ++ l :: ys)).2
        = (runBatchItems env xs).2
          ++ ItemOutcome.failure
              :: (runBatchItems (fun i => env (i + (xs.length + 1))) ys).2
    ∧ ∀ s : Stats, applyOutcome s ItemOutcome.failure
        = { s with completed := s.completed + 1, failed := s.failed + 1 } := by
  have hsplit := runBatchItems_append xs (l :: ys) env
  have hfail0 : itemFails ((fun i => env (i + xs.length)) 0) l = true := by
    simpa using hfail
  have hstep : runBatchItems (fun i => env (i + xs.length)) (l :: ys)
      = (l :: (runBatchItems (fun i => env (i + (xs.length + 1))) ys).1,
         ItemOutcome.failure
           :: (runBatchItems (fun i => env (i + (xs.length + 1))) ys).2) := by
    simp only [runBatchItems]
    rw [processItem_fail _ _ hfail0]
    have henv : (fun i => env (i + 1 + xs.length))
        = (fun i => env (i + (xs.length + 1))) := by
      funext i
      congr 1
      omega
    rw [henv]
    simp
  refine ⟨?_, ?_, fun s => rfl⟩
  · rw [hsplit]
    simp [hstep]
  · rw [hsplit]
    simp [hstep]

/-- Witness for C6: a one-item batch whose fetch raises yields exactly
the original record. -/
theorem c6_item_failure_local_witness :
    (runBatchItems (fun _ => ItemRun.raised) [recX1]).1
      = (runBatchItems (fun _ => ItemRun.raised) ([] : List Dict)).1
        ++ recX1 :: (runBatchItems (fun _ => ItemRun.raised) ([] : List Dict)).1 :=
  (c6_item_failure_local (fun _ => ItemRun.raised) [] recX1 [] (by decide)).1

theorem resumeFilter_mem (existing ls : List Dict) (l : Dict) :
    l ∈ resumeFilter existing ls
      ↔ l ∈ ls ∧ ¬ dget l "ref_id" ∈ existing.map (fun d => dget d "ref_id") := by
  unfold resumeFilter
  simp [List.mem_filter]

/-- C10: in resume mode a backlog item is kept (not skipped) exactly
when its ref_id value is not among the ref_id values of the existing
results; every record the worker emits for a multi-unit item carries a
composite ref_id different from the parent's own ref_id, so a listing
previously scraped through the multi-unit path is never in the skip set
and survives the resume filter on the next run. -/
theorem c10_resume_skip :
    (∀ existing ls : List Dict, ∀ l : Dict,
        l ∈ resumeFilter existing ls
          ↔ l ∈ ls ∧ ¬ dget l "ref_id" ∈ existing.map (fun d => dget d "ref_id"))
    ∧ (∀ (p : Page) (l : Dict) (url : Val) (rid : String),
        dget l "link" = some url → dget l "ref_id" = some (Val.vs rid) →
        p.hasUnitsWrap = true → 2 ≤ p.unitCards.length →
        (∀ d ∈ (processItem (ItemRun.fetched (Fetch.page p)) l).1,
            dget d "ref_id" ≠ some (Val.vs rid))
        ∧ l ∈ resumeFilter (processItem (ItemRun.fetched (Fetch.page p)) l).1 [l]) := by
  refine ⟨fun existing ls l => resumeFilter_mem existing ls l, ?_⟩
  intro p l url rid hlink hridget hwrap hlen
  have hrid : refIdOf l = some rid := (refIdOf_eq_some l rid).mpr hridget
  have hx := extract_listing_multi p url rid hwrap (by omega)
  have hproc : (processItem (ItemRun.fetched (Fetch.page p)) l).1
      = (buildUnitsFrom rid url p.now (buildingAddressOf p) 1 p.unitCards).map
          (fun u => dmerge l u) := by
    simp [processItem, hlink, hrid, hx]
  have hall : ∀ d ∈ (processItem (ItemRun.fetched (Fetch.page p)) l).1,
      dget d "ref_id" ≠ some (Val.vs rid) := by
    intro d hd
    rw [hproc] at hd
    obtain ⟨u, hu, rfl⟩ := List.mem_map.mp hd
    obtain ⟨j, card, rfl⟩ :=
      mem_buildUnitsFrom rid url p.now (buildingAddressOf p) p.unitCards 1 u hu
    rw [dget_dmerge, dget_buildUnit_ref_id]
    intro he
    have hs : rid ++ "_unit_" ++ toString j = rid := by
      simpa using he
    have hd2 := congrArg String.data hs
    rw [String.data_append, String.data_append] at hd2
    have hlen2 := congrArg List.length hd2
    rw [List.length_append, List.length_append] at hlen2
    have h6 : ("_unit_" : String).data.length = 6 := rfl
    omega
  refine ⟨hall, ?_⟩
  rw [resumeFilter_mem]
  refine ⟨List.mem_singleton_self l, ?_⟩
  intro hmem
  obtain ⟨d, hd, hdeq⟩ := List.mem_map.mp hmem
  exact hall d hd (by rw [hdeq, hridget])

/-- Witness for C10: a concrete two-unit page for listing X is
re-scraped on a resumed run (X survives the skip filter built from its
own fan-out output). -/
theorem c10_resume_skip_witness :
    lstX ∈ resumeFilter
        (processItem (ItemRun.fetched (Fetch.page pageCx)) lstX).1 [lstX] :=
  (c10_resume_skip.2 pageCx lstX (Val.vs "u") "X" rfl rfl rfl (by decide)).2

/-- C8: the online main writes a final checkpoint on normal completion,
but an interrupt that arrives while scrape_parallel is still running
writes no final checkpoint at all: with one completed one-record batch
and batch_save = 10 no periodic save fired either, so the run ends (in
the NameError the interrupt handler raises on the unbound new_listings)
with the completed batch's record in no checkpoint. -/
theorem c8_interrupt_loses_checkpoint :
    mainCheckpointWrites [] [[recX1]] 10 (RunEnd.interruptDuringRun [[recX1]])
        = ([], true)
    ∧ (mainCheckpointWrites [] [[recX1]] 10 RunEnd.normal).1 = [[recX1]] :=
  ⟨rfl, rfl⟩

/-- C5: the parking extraction applied to "Parking Spots: 2 spots"
yields 2 in both scrapers; applied to "800 Parking spots" both
variants yield None (the plausibility bound rejects 800 and the word
fallback finds nothing); applied to "two parking stalls" the offline
variant yields 2 via the word fallback, but the online variant yields
None, because its group-less pattern for word-spelled stalls matches
first and its match.group(1) raises IndexError, which the bare except
swallows before the word fallback can run. -/
theorem c5_parking_extraction :
    parkingImproved offlineParkingPatterns none (pyLower "Parking Spots: 2 spots") = some 2
    ∧ parkingImproved onlineParkingPatterns none (pyLower "Parking Spots: 2 spots") = some 2
    ∧ parkingImproved offlineParkingPatterns none (pyLower "800 Parking spots") = none
    ∧ parkingImproved onlineParkingPatterns none (pyLower "800 Parking spots") = none
    ∧ parkingImproved offlineParkingPatterns none (pyLower "two parking stalls") = some 2
    ∧ parkingImproved onlineParkingPatterns none (pyLower "two parking stalls") = none :=
  ⟨rfl, rfl, rfl, rfl, rfl, rfl⟩
